import Mathlib

/-!
Verification development for the rate-limit-aware batch deletion scheduler of
`hata` (`src/hata/discord/client.py`).  The Python methods `Client.message_delete`,
`Client.message_delete_multiple`, `Client.message_delete_multiple2`,
`Client.message_delete_sequence` and `Client.multi_client_message_delete_sequence`
are shallowly embedded below: deques become Lean lists (head = left end of the
deque), message ids and timestamps become `Int`, and the asynchronous loops
become explicit state-passing functions driven by an environment that supplies
clock readings and completion choices.
-/

namespace Hata

/-- Discord epoch in milliseconds (`DISCORD_EPOCH` from `hata.discord.utils`;
the module is not part of the sources under inspection, the well-known constant
value is used; no result below depends on the concrete value). -/
def DISCORD_EPOCH : Int := 1420070400000

/-- Embeds `int((time_now()-1209600.)*1000.-DISCORD_EPOCH)<<22` (client.py line 3739,
4167): the oldest message id still inside the two week bulk-delete window at time
`now` (seconds).  `<< 22` on a Python int is multiplication by `2 ^ 22 = 4194304`. -/
def bulk_delete_limit (now : Int) : Int :=
  ((now - 1209600) * 1000 - DISCORD_EPOCH) * 4194304

/-- Embeds `int((time_now()-1209590.)*1000.-DISCORD_EPOCH)<<22` (client.py lines 3687,
3774, 4044): the safety cutoff id, two weeks minus a ten second margin before `now`. -/
def safety_delete_limit (now : Int) : Int :=
  ((now - 1209590) * 1000 - DISCORD_EPOCH) * 4194304

/-- A message as far as the deletion scheduler observes it: its snowflake id,
whether the acting client is its author, and whether it is already marked deleted. -/
structure Msg where
  id : Int
  own : Bool
  deleted : Bool
deriving DecidableEq

/-- One HTTP request the deletion code can issue.  `single` is
`http.message_delete`, `single_b2wo` is `http.message_delete_b2wo` (the polite
endpoint for foreign messages older than two weeks), `bulk` is
`http.message_delete_multiple`. -/
inductive Request where
  | single (channel_id message_id : Int)
  | single_b2wo (channel_id message_id : Int)
  | bulk (channel_id : Int) (message_ids : List Int)
deriving DecidableEq

/-- Whether a request uses the bulk-delete endpoint. -/
def Request.is_bulk : Request → Bool
  | .bulk _ _ => true
  | _ => false

/-- Embeds `Client.message_delete` (client.py lines 3684-3695): an already
deleted message produces no request at all; otherwise own or young messages go
through `http.message_delete` and the rest through `http.message_delete_b2wo`. -/
def message_delete (now channel_id : Int) (message : Msg) : Option Request :=
  if message.deleted then none
  else if message.own = true ∨ safety_delete_limit now < message.id then
    some (.single channel_id message.id)
  else
    some (.single_b2wo channel_id message.id)

/-- Embeds the classification loop of `Client.message_delete_multiple`
(client.py lines 3741-3758) with accumulators for the three deques
(`message_group_new`, `message_group_old`, `message_group_old_own`); deleted
messages are skipped (`continue`, line 3742-3743). -/
def message_delete_multiple_classify_go (bulk_limit : Int) :
    List Msg → List (Bool × Int) → List Int → List Int →
    List (Bool × Int) × List Int × List Int
  | [], new_q, old_q, old_own_q => (new_q, old_q, old_own_q)
  | m :: rest, new_q, old_q, old_own_q =>
    if m.deleted then
      message_delete_multiple_classify_go bulk_limit rest new_q old_q old_own_q
    else if bulk_limit < m.id then
      message_delete_multiple_classify_go bulk_limit rest (new_q ++ [(m.own, m.id)]) old_q old_own_q
    else if m.own then
      message_delete_multiple_classify_go bulk_limit rest new_q old_q (old_own_q ++ [m.id])
    else
      message_delete_multiple_classify_go bulk_limit rest new_q (old_q ++ [m.id]) old_own_q

/-- Classification of a message list into the three work deques, starting empty. -/
def message_delete_multiple_classify (bulk_limit : Int) (messages : List Msg) :
    List (Bool × Int) × List Int × List Int :=
  message_delete_multiple_classify_go bulk_limit messages [] [] []

/-- The top level dispatch of `Client.message_delete_multiple` (client.py lines
3722-3739): an empty input returns at once; a non-guild channel deletes every
message sequentially through the single endpoint (lines 3728-3733); a guild
channel classifies the messages and enters the scheduling loop. -/
inductive MultiDeletePlan where
  | empty_return
  | sequential (requests : List Request)
  | guild_scheduled (new_q : List (Bool × Int)) (old_q old_own_q : List Int)
deriving DecidableEq

/-- Embeds the dispatch of `Client.message_delete_multiple` (client.py lines
3722-3758). -/
def message_delete_multiple_plan (now channel_id : Int) (channel_is_guild : Bool)
    (messages : List Msg) : MultiDeletePlan :=
  if messages = [] then .empty_return
  else if channel_is_guild = false then
    .sequential (messages.map fun m => Request.single channel_id m.id)
  else
    match message_delete_multiple_classify (bulk_delete_limit now) messages with
    | (new_q, old_q, old_own_q) => .guild_scheduled new_q old_q old_own_q

/-- Embeds the bulk re-validation `while message_group_new:` loop of
`Client.message_delete_multiple` (client.py lines 3772-3795).  It pops every
entry of `message_group_new` (up to a batch of 100 collected ids): ids above
`limit` (the safety cutoff) are collected for the bulk request; ids that are
more than `20971520000` id-units (5000 ms `<< 22`) below `limit` are skipped
with `continue` — they are popped and never re-enqueued; the remaining ids are
pushed onto the left of the matching aging deque.  Returns
`(message_ids, remaining new queue, old queue, old own queue)`. -/
def bulk_collect_multiple_go (limit : Int) :
    List (Bool × Int) → List Int → Nat → List Int → List Int →
    List Int × List (Bool × Int) × List Int × List Int
  | [], ids, _, old_q, old_own_q => (ids, [], old_q, old_own_q)
  | (own, message_id) :: rest, ids, count, old_q, old_own_q =>
    if limit < message_id then
      if count + 1 = 100 then (ids ++ [message_id], rest, old_q, old_own_q)
      else bulk_collect_multiple_go limit rest (ids ++ [message_id]) (count + 1) old_q old_own_q
    else if message_id + 20971520000 < limit then
      bulk_collect_multiple_go limit rest ids count old_q old_own_q
    else if own then
      bulk_collect_multiple_go limit rest ids count old_q (message_id :: old_own_q)
    else
      bulk_collect_multiple_go limit rest ids count (message_id :: old_q) old_own_q

/-- The re-validation pass of `Client.message_delete_multiple` at time `now`
(client.py lines 3768-3795), starting with an empty id batch. -/
def bulk_collect_multiple (now : Int) (new_q : List (Bool × Int)) (old_q old_own_q : List Int) :
    List Int × List (Bool × Int) × List Int × List Int :=
  bulk_collect_multiple_go (safety_delete_limit now) new_q [] 0 old_q old_own_q

/-- What the mass-delete slot of an iteration decides to submit. -/
inductive MassAction where
  | no_action
  | single_new (message_id : Int)
  | mass (message_ids : List Int)
deriving DecidableEq

/-- Embeds the submission decision of `Client.message_delete_multiple`
(client.py lines 3797-3806) applied to the result of the re-validation pass:
one collected id goes through the single new endpoint provided the
`delete_new_task` slot is free (a busy slot discards the already popped id),
two or more go through the bulk endpoint.  Returns the action together with the
remaining three queues. -/
def multiple_mass_decision (now : Int) (new_q : List (Bool × Int)) (old_q old_own_q : List Int)
    (delete_new_busy : Bool) : MassAction × List (Bool × Int) × List Int × List Int :=
  match bulk_collect_multiple now new_q old_q old_own_q with
  | (ids, new_rest, old_q1, old_own_q1) =>
    if ids.length = 0 then (.no_action, new_rest, old_q1, old_own_q1)
    else if ids.length = 1 then
      if delete_new_busy then (.no_action, new_rest, old_q1, old_own_q1)
      else (.single_new ids.headI, new_rest, old_q1, old_own_q1)
    else (.mass ids, new_rest, old_q1, old_own_q1)

/-- Embeds the `collected` counting loop of `Client.message_delete_sequence`
(client.py lines 4045-4059) and of `Client.multi_client_message_delete_sequence`
(lines 4414-4428): walk the new queue from the front, counting entries whose id
is at least `time_limit`, stopping at 100 or at the first id below the limit.
The first pair component is `own` (`Bool`) in the single-client loop and `whos`
(`Int`) in the multi-client loop, hence the polymorphism. -/
def collect_count_go {α : Type} (time_limit : Int) :
    List (α × Int) → Nat → Nat
  | [], collected => collected
  | (_, message_id) :: rest, collected =>
    if collected = 100 then collected
    else if message_id < time_limit then collected
    else collect_count_go time_limit rest (collected + 1)

/-- The `collected` count starting from zero. -/
def collect_count {α : Type} (time_limit : Int) (new_q : List (α × Int)) : Nat :=
  collect_count_go time_limit new_q 0

/-- Embeds the mass-delete submission decision of `Client.message_delete_sequence`
(client.py lines 4040-4081): count the eligible prefix; zero collected means no
action, exactly one is submitted through the single endpoint when the
`delete_new_task` slot is free (otherwise it stays queued), two or more are
popped and submitted as one bulk request. -/
def sequence_mass_decision (time_limit : Int) (new_q : List (Bool × Int))
    (delete_new_busy : Bool) : MassAction × List (Bool × Int) :=
  let collected := collect_count time_limit new_q
  if collected = 0 then (.no_action, new_q)
  else if collected = 1 then
    if delete_new_busy then (.no_action, new_q)
    else
      match new_q with
      | [] => (.no_action, [])
      | (_, message_id) :: rest => (.single_new message_id, rest)
  else
    (.mass ((new_q.take collected).map Prod.snd), new_q.drop collected)

/-- Embeds the tail re-classification walk of `Client.message_delete_sequence`
(client.py lines 4084-4109) on the reversed new queue: the walk starts at the
deque's right end and stops at the first id above `time_limit`; every expired
entry is removed and pushed with `appendleft` onto the matching aging deque. -/
def drain_expired_rev (time_limit : Int) :
    List (Bool × Int) → List Int → List Int →
    List (Bool × Int) × List Int × List Int
  | [], old_q, old_own_q => ([], old_q, old_own_q)
  | (own, message_id) :: rest_rev, old_q, old_own_q =>
    if time_limit < message_id then ((own, message_id) :: rest_rev, old_q, old_own_q)
    else if own then drain_expired_rev time_limit rest_rev old_q (message_id :: old_own_q)
    else drain_expired_rev time_limit rest_rev (message_id :: old_q) old_own_q

/-- The tail re-classification of `Client.message_delete_sequence` (client.py
lines 4084-4109).  `time_limit` is the already lowered cutoff
`time_limit - 20971520000` of line 4087. -/
def drain_expired (time_limit : Int) (new_q : List (Bool × Int)) (old_q old_own_q : List Int) :
    List (Bool × Int) × List Int × List Int :=
  match drain_expired_rev time_limit new_q.reverse old_q old_own_q with
  | (kept_rev, old_q1, old_own_q1) => (kept_rev.reverse, old_q1, old_own_q1)

lemma collect_count_go_le_100 {α : Type} (time_limit : Int) :
    ∀ (q : List (α × Int)) (c : Nat), c ≤ 100 → collect_count_go time_limit q c ≤ 100 := by
  intro q
  induction q with
  | nil => intro c hc; simpa [collect_count_go] using hc
  | cons p rest ih =>
    intro c hc
    obtain ⟨a, message_id⟩ := p
    simp only [collect_count_go]
    split
    · exact hc
    · split
      · exact hc
      · exact ih (c + 1) (by omega)

lemma collect_count_go_le_len {α : Type} (time_limit : Int) :
    ∀ (q : List (α × Int)) (c : Nat), collect_count_go time_limit q c ≤ c + q.length := by
  intro q
  induction q with
  | nil => intro c; simp [collect_count_go]
  | cons p rest ih =>
    intro c
    obtain ⟨a, message_id⟩ := p
    simp only [collect_count_go, List.length_cons]
    split
    · omega
    · split
      · omega
      · have := ih (c + 1)
        omega

lemma collect_count_le_100 {α : Type} (time_limit : Int) (q : List (α × Int)) :
    collect_count time_limit q ≤ 100 :=
  collect_count_go_le_100 time_limit q 0 (by omega)

lemma collect_count_le_len {α : Type} (time_limit : Int) (q : List (α × Int)) :
    collect_count time_limit q ≤ q.length := by
  have := collect_count_go_le_len time_limit q 0
  simpa [collect_count] using this

lemma bulk_collect_multiple_go_len (limit : Int) :
    ∀ (q : List (Bool × Int)) (ids : List Int) (c : Nat) (old_q old_own_q : List Int),
      ids.length = c → c ≤ 99 →
      (bulk_collect_multiple_go limit q ids c old_q old_own_q).1.length ≤ 100 := by
  intro q
  induction q with
  | nil => intro ids c old_q old_own_q hlen hc; simp only [bulk_collect_multiple_go]; omega
  | cons p rest ih =>
    intro ids c old_q old_own_q hlen hc
    obtain ⟨own, message_id⟩ := p
    simp only [bulk_collect_multiple_go]
    split
    · split
      · simp only [List.length_append, List.length_singleton]
        omega
      · exact ih (ids ++ [message_id]) (c + 1) old_q old_own_q (by simp [hlen]) (by omega)
    · split
      · exact ih ids c old_q old_own_q hlen hc
      · split
        · exact ih ids c old_q (message_id :: old_own_q) hlen hc
        · exact ih ids c (message_id :: old_q) old_own_q hlen hc

lemma bulk_collect_multiple_len (now : Int) (new_q : List (Bool × Int)) (old_q old_own_q : List Int) :
    (bulk_collect_multiple now new_q old_q old_own_q).1.length ≤ 100 :=
  bulk_collect_multiple_go_len (safety_delete_limit now) new_q [] 0 old_q old_own_q rfl (by omega)

lemma filter_reverse_eq {α : Type} (p : α → Bool) :
    ∀ l : List α, l.reverse.filter p = (l.filter p).reverse := by
  intro l
  induction l with
  | nil => rfl
  | cons x rest ih =>
    by_cases hx : p x = true
    · simp [List.filter_cons, hx, List.filter_append, ih]
    · simp [List.filter_cons, hx, List.filter_append, ih]

/-- The run of expired entries at the right end of the new queue: the walk of
client.py lines 4089-4109 visits exactly these entries (in original order). -/
def expired_tail (time_limit : Int) (new_q : List (Bool × Int)) : List (Bool × Int) :=
  (new_q.reverse.takeWhile (fun p => decide (p.2 ≤ time_limit))).reverse

lemma drain_expired_rev_spec (time_limit : Int) :
    ∀ (l : List (Bool × Int)) (old_q old_own_q : List Int),
      drain_expired_rev time_limit l old_q old_own_q =
        (l.dropWhile (fun p => decide (p.2 ≤ time_limit)),
         ((l.takeWhile (fun p => decide (p.2 ≤ time_limit))).filter
            (fun p => !p.1)).reverse.map Prod.snd ++ old_q,
         ((l.takeWhile (fun p => decide (p.2 ≤ time_limit))).filter
            (fun p => p.1)).reverse.map Prod.snd ++ old_own_q) := by
  intro l
  induction l with
  | nil => intro old_q old_own_q; simp [drain_expired_rev]
  | cons p rest ih =>
    intro old_q old_own_q
    obtain ⟨own, message_id⟩ := p
    by_cases hlt : time_limit < message_id
    · have hq : (decide (message_id ≤ time_limit)) = false := by
        simp only [decide_eq_false_iff_not]
        omega
      simp [drain_expired_rev, hlt, List.dropWhile_cons, List.takeWhile_cons, hq]
    · have hq : (decide (message_id ≤ time_limit)) = true := by
        simp only [decide_eq_true_eq]
        omega
      rcases Bool.eq_false_or_eq_true own with hown | hown
      · subst hown
        simp [drain_expired_rev, hlt, hq, ih, List.filter_cons]
      · subst hown
        simp [drain_expired_rev, hlt, hq, ih, List.filter_cons]

/-- C8 (amended): the tail re-classification of `message_delete_sequence` moves
exactly the run of expired entries at the right end of the fresh queue,
preserves their relative order, and prepends each moved group as a block at the
head (left end) of its aging queue; the surviving fresh prefix keeps its order. -/
theorem drain_expired_moves_tail_run_to_head (time_limit : Int)
    (new_q : List (Bool × Int)) (old_q old_own_q : List Int) :
    drain_expired time_limit new_q old_q old_own_q =
      ((new_q.reverse.dropWhile (fun p => decide (p.2 ≤ time_limit))).reverse,
       ((expired_tail time_limit new_q).filter (fun p => !p.1)).map Prod.snd ++ old_q,
       ((expired_tail time_limit new_q).filter (fun p => p.1)).map Prod.snd ++ old_own_q) := by
  have h := drain_expired_rev_spec time_limit new_q.reverse old_q old_own_q
  simp only [drain_expired, h, expired_tail, filter_reverse_eq, List.map_reverse,
    List.reverse_reverse, Prod.mk.injEq, and_self]

/-- C8 (counterexample): with cutoff 10, fresh queue holding the single expired
foreign entry `(false, 5)` and aging queue `[9]`, the drain produces the aging
queue `[5, 9]`: the moved item sits at the head, not at the tail `[9, 5]` the
claim requires. -/
theorem drain_expired_not_tail_append :
    drain_expired 10 [(false, 5)] [9] [] = ([], [5, 9], []) ∧
    ([5, 9] : List Int) ≠ [9] ++ [5] := by
  decide

/-- C9: a message already marked deleted is a no-op for the deletion code:
`message_delete` returns without issuing any request, and the classification
pass of `message_delete_multiple` skips the message, leaving the three work
queues exactly as the remaining batch alone would produce them. -/
theorem deleted_message_is_noop (now channel_id bulk_limit : Int) (m : Msg)
    (h : m.deleted = true) :
    message_delete now channel_id m = none ∧
    ∀ (rest : List Msg) (new_q : List (Bool × Int)) (old_q old_own_q : List Int),
      message_delete_multiple_classify_go bulk_limit (m :: rest) new_q old_q old_own_q =
        message_delete_multiple_classify_go bulk_limit rest new_q old_q old_own_q := by
  constructor
  · simp [message_delete, h]
  · intro rest new_q old_q old_own_q
    simp [message_delete_multiple_classify_go, h]

/-- C9 witness: a concrete already-deleted message produces no request. -/
theorem deleted_message_is_noop_witness :
    message_delete 0 5 ⟨10, false, true⟩ = none :=
  (deleted_message_is_noop 0 5 0 ⟨10, false, true⟩ rfl).1

/-- C10: for a non-empty message list whose channel is not a guild channel,
`message_delete_multiple` issues one single-endpoint request per message, in
input order, and none of the issued requests is a bulk-delete request. -/
theorem nonguild_deletes_sequentially (now channel_id : Int) (messages : List Msg)
    (h : messages ≠ []) :
    message_delete_multiple_plan now channel_id false messages =
      .sequential (messages.map fun m => Request.single channel_id m.id) ∧
    ∀ r ∈ messages.map (fun m => Request.single channel_id m.id), r.is_bulk = false := by
  constructor
  · simp [message_delete_multiple_plan, h]
  · intro r hr
    simp only [List.mem_map] at hr
    obtain ⟨m, _, rfl⟩ := hr
    rfl

/-- C10 witness: a concrete two-message non-guild batch. -/
theorem nonguild_deletes_sequentially_witness :
    message_delete_multiple_plan 0 7 false [⟨1, false, false⟩, ⟨2, true, false⟩] =
      .sequential [Request.single 7 1, Request.single 7 2] :=
  (nonguild_deletes_sequentially 0 7 [⟨1, false, false⟩, ⟨2, true, false⟩] (by decide)).1

/-- C1: evidence for the defect.  At time 1421280000 the id 1 is classified
fresh (`bulk_delete_limit` is below it).  One hundred seconds later the bulk
re-validation pass of `message_delete_multiple` pops it and, because it is more
than `20971520000` id-units below the safety cutoff, hits the bare `continue`
of client.py line 3785-3786: the id ends up in no bulk batch, no aging queue and
not in the remaining fresh queue — it is silently dropped, with no deletion
request ever issued for it, while the surrounding comment says such ids are
moved to the aging queues. -/
theorem bulk_revalidation_drops_expired_id :
    bulk_delete_limit 1421280000 < 1 ∧
    bulk_collect_multiple 1421280100 [(false, 1)] [3] [4] = ([], [], [3], [4]) := by
  constructor
  · decide
  · decide

/-- C3 (counterexample): at time 1421280000, the queue holds exactly one
eligible fresh id (it lies above the safety cutoff) and the single-new slot is
busy.  The re-validation pass of `message_delete_multiple` pops the id into its
local batch, the decision then takes no action, and the id is in none of the
returned queues: the single-delete endpoint is not used for it, contradicting
the unconditional claim. -/
theorem single_fresh_with_busy_slot_not_submitted :
    safety_delete_limit 1421280000 < 41943040001 ∧
    multiple_mass_decision 1421280000 [(false, 41943040001)] [] [] true =
      (.no_action, [], [], []) := by
  constructor
  · decide
  · decide

/-- C3 (amended): in both scheduling loops every bulk submission carries
between 2 and 100 message ids, and an exactly-one-eligible fresh item is
submitted through the single-delete endpoint provided the single-new task slot
is idle; with a busy slot `message_delete_sequence` leaves the item queued
while `message_delete_multiple` discards it (see the counterexample). -/
theorem mass_submission_bounds (tl now : Int) (new_q : List (Bool × Int))
    (old_q old_own_q : List Int) (busy : Bool) :
    (∀ ids, (sequence_mass_decision tl new_q busy).1 = .mass ids →
      2 ≤ ids.length ∧ ids.length ≤ 100) ∧
    (∀ ids, (multiple_mass_decision now new_q old_q old_own_q busy).1 = .mass ids →
      2 ≤ ids.length ∧ ids.length ≤ 100) ∧
    (collect_count tl new_q = 1 → busy = false →
      ∃ own message_id rest, new_q = (own, message_id) :: rest ∧
        sequence_mass_decision tl new_q busy = (.single_new message_id, rest)) ∧
    (∀ x, (bulk_collect_multiple now new_q old_q old_own_q).1 = [x] → busy = false →
      (multiple_mass_decision now new_q old_q old_own_q busy).1 = .single_new x) := by
  obtain ⟨ids0, new_rest, old_q1, old_own_q1, hbc⟩ :
      ∃ a b c d, bulk_collect_multiple now new_q old_q old_own_q = (a, b, c, d) :=
    ⟨_, _, _, _, rfl⟩
  refine ⟨?_, ?_, ?_, ?_⟩
  · intro ids h
    unfold sequence_mass_decision at h
    by_cases h0 : collect_count tl new_q = 0
    · simp [h0] at h
    by_cases h1 : collect_count tl new_q = 1
    · rcases new_q with _ | ⟨⟨own, message_id⟩, rest⟩
      · simp [collect_count, collect_count_go] at h0
      · by_cases hb : busy = true
        · simp [h0, h1, hb] at h
        · simp only [Bool.not_eq_true] at hb
          simp [h0, h1, hb] at h
    · simp only [h0, h1, if_false, if_neg h0, if_neg h1] at h
      simp only [MassAction.mass.injEq] at h
      subst h
      have hle : collect_count tl new_q ≤ new_q.length := collect_count_le_len tl new_q
      have h100 : collect_count tl new_q ≤ 100 := collect_count_le_100 tl new_q
      constructor
      · simp only [List.length_map, List.length_take]
        omega
      · simp only [List.length_map, List.length_take]
        omega
  · intro ids h
    simp only [multiple_mass_decision] at h
    rw [hbc] at h
    simp only at h
    by_cases h0 : ids0 = []
    · simp [h0] at h
    by_cases h1 : ids0.length = 1
    · by_cases hb : busy = true
      · simp [h0, h1, hb] at h
      · simp only [Bool.not_eq_true] at hb
        simp [h0, h1, hb] at h
    · simp [h0, h1] at h
      subst h
      have h100 : ids0.length ≤ 100 := by
        have hlen := bulk_collect_multiple_len now new_q old_q old_own_q
        rw [hbc] at hlen
        exact hlen
      have hne0 : ids0.length ≠ 0 := by
        simpa [List.length_eq_zero] using h0
      exact ⟨by omega, h100⟩
  · intro hc1 hb
    rcases hq : new_q with _ | ⟨⟨own, message_id⟩, rest⟩
    · rw [hq] at hc1
      simp [collect_count, collect_count_go] at hc1
    · refine ⟨own, message_id, rest, rfl, ?_⟩
      rw [hq] at hc1
      simp [sequence_mass_decision, hc1, hb]
  · intro x hx hb
    rw [hbc] at hx
    simp only at hx
    subst hx
    simp only [multiple_mass_decision]
    rw [hbc]
    simp [hb]

/-- C3 witness: one eligible fresh id above cutoff 0 with an idle slot is
submitted as a single-new deletion by the sequence loop. -/
theorem mass_submission_bounds_witness :
    ∃ own message_id rest, ([(true, 41943040001)] : List (Bool × Int)) = (own, message_id) :: rest ∧
      sequence_mass_decision 0 [(true, 41943040001)] false = (.single_new message_id, rest) :=
  (mass_submission_bounds 0 0 [(true, 41943040001)] [] [] false).2.2.1 (by decide) rfl

/-- Outcome of the completion-processing loop of one scheduler iteration. -/
inductive DoneOutcome where
  | all_ok (remaining : List Nat)
  | failed (failing : Nat) (cancelled : List Nat)
deriving DecidableEq

/-- Embeds the completion-processing `for task in done:` loop of
`Client.message_delete_multiple` (client.py lines 3847-3854) and
`Client.message_delete_sequence` (lines 4146-4153): each completed task is
removed from the task list; the first task whose `result()` raises makes the
loop cancel every task still in the list and propagate the exception. -/
def process_done (fails : Nat → Bool) : List Nat → List Nat → DoneOutcome
  | [], tasks => .all_ok tasks
  | d :: ds, tasks =>
    let tasks1 := tasks.erase d
    if fails d then .failed d tasks1
    else process_done fails ds tasks1

/-- C5: when a completed operation fails, the loop removes each completed
operation from the task list exactly once, and the first failing one is
propagated after every task still in the list — in particular every still
pending (not yet completed) operation — has been cancelled; the failing task
itself is not in the cancelled list, and each successfully processed task was
erased before it, so no completed operation is processed twice. -/
theorem first_failure_cancels_pending (fails : Nat → Bool) :
    ∀ (done tasks : List Nat), done.Nodup → tasks.Nodup →
      (∀ d ∈ done, d ∈ tasks) → (∃ d ∈ done, fails d = true) →
      ∃ pre f suf,
        done = pre ++ f :: suf ∧ (∀ p ∈ pre, fails p = false) ∧ fails f = true ∧
        process_done fails done tasks = .failed f ((tasks.diff pre).erase f) ∧
        f ∉ (tasks.diff pre).erase f ∧
        ∀ t ∈ tasks, t ∉ done → t ∈ (tasks.diff pre).erase f := by
  intro done
  induction done with
  | nil =>
    intro tasks _ _ _ hfail
    obtain ⟨d, hd, _⟩ := hfail
    exact absurd hd (List.not_mem_nil d)
  | cons d ds ih =>
    intro tasks hnd hnt hsub hfail
    have hnd' := List.nodup_cons.mp hnd
    by_cases hd : fails d = true
    · refine ⟨[], d, ds, rfl, by simp, hd, ?_, ?_, ?_⟩
      · simp [process_done, hd]
      · simp only [List.diff_nil]
        intro hmem
        exact absurd ((hnt.mem_erase_iff).mp hmem).1 (by simp)
      · intro t ht htn
        simp only [List.diff_nil]
        have htd : t ≠ d := fun h => htn (h ▸ List.mem_cons_self d ds)
        exact (List.mem_erase_of_ne htd).mpr ht
    · have hd' : fails d = false := by simpa using hd
      have hsub' : ∀ e ∈ ds, e ∈ tasks.erase d := by
        intro e he
        have hed : e ≠ d := fun h => hnd'.1 (h ▸ he)
        exact (List.mem_erase_of_ne hed).mpr (hsub e (List.mem_cons_of_mem d he))
      have hfail' : ∃ e ∈ ds, fails e = true := by
        obtain ⟨e, he, hfe⟩ := hfail
        rcases List.mem_cons.mp he with rfl | he'
        · exact absurd hfe (by simp [hd'])
        · exact ⟨e, he', hfe⟩
      obtain ⟨pre, f, suf, heq, hpre, hf, hproc, hnotmem, hcanc⟩ :=
        ih (tasks.erase d) hnd'.2 (hnt.erase d) hsub' hfail'
      refine ⟨d :: pre, f, suf, by simp [heq], ?_, hf, ?_, ?_, ?_⟩
      · intro p hp
        rcases List.mem_cons.mp hp with rfl | hp'
        · exact hd'
        · exact hpre p hp'
      · have hstep : process_done fails (d :: ds) tasks = process_done fails ds (tasks.erase d) := by
          simp [process_done, hd']
        rw [hstep, List.diff_cons]
        exact hproc
      · rw [List.diff_cons]
        exact hnotmem
      · intro t ht htn
        rw [List.diff_cons]
        have htd : t ≠ d := fun h => htn (h ▸ List.mem_cons_self d ds)
        have htds : t ∉ ds := fun h => htn (List.mem_cons_of_mem d h)
        exact hcanc t ((List.mem_erase_of_ne htd).mpr ht) htds

/-- C5 witness: tasks 1, 2, 3 with completed set {1, 2} and task 2 failing. -/
theorem first_failure_cancels_pending_witness :
    ∃ pre f suf,
      ([1, 2] : List Nat) = pre ++ f :: suf ∧
      (∀ p ∈ pre, (fun t => decide (t = 2)) p = false) ∧
      (fun t : Nat => decide (t = 2)) f = true ∧
      process_done (fun t => decide (t = 2)) [1, 2] [1, 2, 3] =
        .failed f ((([1, 2, 3] : List Nat).diff pre).erase f) ∧
      f ∉ (([1, 2, 3] : List Nat).diff pre).erase f ∧
      ∀ t ∈ ([1, 2, 3] : List Nat), t ∉ ([1, 2] : List Nat) →
        t ∈ (([1, 2, 3] : List Nat).diff pre).erase f :=
  first_failure_cancels_pending (fun t => decide (t = 2)) [1, 2] [1, 2, 3]
    (by decide) (by decide) (by decide) ⟨2, by decide, by decide⟩

/-- An element of the `exceptions` list built by `message_delete_multiple2`:
either an exception raised by a per-channel task, or the `exceptions` list
object itself (what line 3912 actually appends). -/
inductive ExcEntry where
  | exc (code : Nat)
  | self_ref
deriving DecidableEq

/-- Embeds the exception-collecting epilogue of `Client.message_delete_multiple2`
(client.py lines 3906-3917): for each finished per-channel task whose
`exception()` is not `None`, the code executes `exceptions.append(exceptions)` —
appending the list itself rather than the exception; a non-empty list is
returned, otherwise the method returns `None`. -/
def message_delete_multiple2_collect (task_exceptions : List (Option Nat)) :
    Option (List ExcEntry) :=
  let exceptions := task_exceptions.foldl
    (fun acc e =>
      match e with
      | none => acc
      | some _ => acc ++ [ExcEntry.self_ref]) []
  if exceptions = [] then none else some exceptions

/-- C7: evidence for the defect.  With two per-channel tasks of which the
second raised exception 5, `message_delete_multiple2` returns a list whose only
element is the `exceptions` list itself (line 3912 appends `exceptions`, not
`exception`), not the raised exception; with no failures it returns `None`. -/
theorem multiple2_returns_self_reference :
    message_delete_multiple2_collect [none, some 5] = some [ExcEntry.self_ref] ∧
    message_delete_multiple2_collect [none, some 5] ≠ some [ExcEntry.exc 5] ∧
    message_delete_multiple2_collect [none, none] = none := by
  decide

/-- Kinds of task slots: one per independently rate limited channel of the
deletion loops (`get_mass_task`, `delete_mass_task`, `delete_new_task`,
`delete_old_task`). -/
inductive ChanKind where
  | get_mass
  | delete_mass
  | delete_new
  | delete_old
deriving DecidableEq

/-- A task created by the multi-client loop: its running number, the index of
the sharder whose slot holds it and the slot kind (the rate limited channel it
occupies). -/
structure MTask where
  task_id : Nat
  sharder_index : Nat
  kind : ChanKind
deriving DecidableEq

/-- Per-client state of `multi_client_message_delete_sequence`.  The class
`MultiClientMessageDeleteSequenceSharder` lives in `hata.discord.client_utils`,
which is not among the sources under inspection; its fields are modelled from
the spec (actors with heterogeneous permissions) and from every use the loop
makes of them: the two permission flags and one task slot per delete channel. -/
structure Sharder where
  can_manage : Bool
  can_read : Bool
  mass_task : Option Nat
  new_task : Option Nat
  old_task : Option Nat
deriving DecidableEq

/-- A value stored in `message_group_old_own` of the multi-client loop.  Lines
4367 and 4610 append `(whos, message_id)` pairs; the tail re-classification of
line 4475 appends `(whos, message_group_old)` — the old deque object itself —
modelled by the marker `old_q_object`. -/
inductive OwnEntry where
  | mid (message_id : Int)
  | old_q_object
deriving DecidableEq

/-- The mutable state of one submission pass of
`multi_client_message_delete_sequence` (sharders, the three work deques, the
task list, and a counter supplying fresh task ids). -/
structure MultiPassState where
  sharders : List Sharder
  new_q : List (Int × Int)
  old_q : List Int
  old_own_q : List (Int × OwnEntry)
  tasks : List MTask
  next_task_id : Nat
deriving DecidableEq

/-- Placeholder sharder for out-of-range list reads (never reached on the
index ranges the passes use). -/
def sharder_default : Sharder := ⟨false, false, none, none, none⟩

/-- Stores a task id into the single-new slot of the sharder at index `i`. -/
def set_new_task_at (sharders : List Sharder) (i : Nat) (tid : Nat) : List Sharder :=
  sharders.set i { sharders.getD i sharder_default with new_task := some tid }

/-- Stores a task id into the mass-delete slot of the sharder at index `i`. -/
def set_mass_task_at (sharders : List Sharder) (i : Nat) (tid : Nat) : List Sharder :=
  sharders.set i { sharders.getD i sharder_default with mass_task := some tid }

/-- Stores a task id into the old-delete slot of the sharder at index `i`. -/
def set_old_task_at (sharders : List Sharder) (i : Nat) (tid : Nat) : List Sharder :=
  sharders.set i { sharders.getD i sharder_default with old_task := some tid }

/-- Embeds the `for sub_sharder in sharders:` search of client.py lines
4435-4443.  The guard of line 4436 tests `sub_sharder.can_manage_messages`
together with `sharder.delete_new_task is None` — the slot of the OUTER loop's
sharder, not the candidate's: the candidate's own single-new slot is never
inspected. -/
def find_sub_sharder (sharders : List Sharder) (outer_new_task : Option Nat) : Option Nat :=
  if outer_new_task = none then sharders.findIdx? (fun s => s.can_manage) else none

/-- The tail re-classification of the multi-client loop (client.py lines
4456-4480) on the reversed new queue; `whos = -1` entries go to the old deque,
owned entries are pushed onto `message_group_old_own` as
`(whos, message_group_old)` — the deque object, not the id (line 4475). -/
def multi_drain_rev (time_limit : Int) :
    List (Int × Int) → List Int → List (Int × OwnEntry) →
    List (Int × Int) × List Int × List (Int × OwnEntry)
  | [], old_q, old_own_q => ([], old_q, old_own_q)
  | (whos, message_id) :: rest_rev, old_q, old_own_q =>
    if time_limit < message_id then ((whos, message_id) :: rest_rev, old_q, old_own_q)
    else if whos = -1 then multi_drain_rev time_limit rest_rev (message_id :: old_q) old_own_q
    else multi_drain_rev time_limit rest_rev old_q ((whos, OwnEntry.old_q_object) :: old_own_q)

/-- The multi-client tail re-classification applied to a pass state;
`time_limit` is the already lowered cutoff of line 4460. -/
def multi_drain (time_limit : Int) (st : MultiPassState) : MultiPassState :=
  match multi_drain_rev time_limit st.new_q.reverse st.old_q st.old_own_q with
  | (kept_rev, old_q1, old_own_q1) =>
    { st with new_q := kept_rev.reverse, old_q := old_q1, old_own_q := old_own_q1 }

/-- Embeds the body of the `for sharder in sharders:` submission pass of
`multi_client_message_delete_sequence` (client.py lines 4408-4480) for the
sharder at index `i`: when it can manage messages and its mass slot is free,
count the eligible fresh prefix; a single collected message is given to the
first managing sub-sharder (guarded by the OUTER sharder's new slot, line
4436), two or more become a mass task on this sharder; finally the expired
tail run is re-classified. -/
def multi_sharder_body (time_limit : Int) (st : MultiPassState) (i : Nat) : MultiPassState :=
  match st.sharders.get? i with
  | none => st
  | some sh =>
    if sh.can_manage = true ∧ sh.mass_task = none then
      if st.new_q = [] then st
      else
        let collected := collect_count time_limit st.new_q
        let st1 :=
          if collected = 0 then st
          else if collected = 1 then
            match find_sub_sharder st.sharders sh.new_task with
            | none => st
            | some sub =>
              match st.new_q with
              | [] => st
              | _ :: rest =>
                { st with
                  new_q := rest
                  sharders := set_new_task_at st.sharders sub st.next_task_id
                  tasks := st.tasks ++ [⟨st.next_task_id, sub, ChanKind.delete_new⟩]
                  next_task_id := st.next_task_id + 1 }
          else
            { st with
              new_q := st.new_q.drop collected
              sharders := set_mass_task_at st.sharders i st.next_task_id
              tasks := st.tasks ++ [⟨st.next_task_id, i, ChanKind.delete_mass⟩]
              next_task_id := st.next_task_id + 1 }
        multi_drain (time_limit - 20971520000) st1
    else st

/-- The whole `for sharder in sharders:` submission pass (client.py lines
4408-4480). -/
def multi_mass_new_pass (time_limit : Int) (st : MultiPassState) : MultiPassState :=
  (List.range st.sharders.length).foldl (multi_sharder_body time_limit) st

/-- C2: evidence for the defect.  Two managing sharders; sharder 0 already has
pending single-new task 0 (present in the task list), sharder 1 is idle, and
one eligible fresh message is queued.  During the submission pass, the
iteration for sharder 1 finds `sharder.delete_new_task is None` (its own slot),
picks sharder 0 as the first managing sub-sharder and submits on it: the task
list then holds two outstanding tasks on sharder 0's single-new channel, and
sharder 0's slot is overwritten while task 0 is still outstanding. -/
theorem multi_new_slot_double_submission :
    (multi_mass_new_pass 1000
        ⟨[⟨true, false, none, some 0, none⟩, ⟨true, false, none, none, none⟩],
         [(-1, 1000)], [], [], [⟨0, 0, ChanKind.delete_new⟩], 1⟩).tasks =
      [⟨0, 0, ChanKind.delete_new⟩, ⟨1, 0, ChanKind.delete_new⟩] ∧
    ¬ ((multi_mass_new_pass 1000
        ⟨[⟨true, false, none, some 0, none⟩, ⟨true, false, none, none, none⟩],
         [(-1, 1000)], [], [], [⟨0, 0, ChanKind.delete_new⟩], 1⟩).tasks.map
          fun t => (t.sharder_index, t.kind)).Nodup ∧
    ((multi_mass_new_pass 1000
        ⟨[⟨true, false, none, some 0, none⟩, ⟨true, false, none, none, none⟩],
         [(-1, 1000)], [], [], [⟨0, 0, ChanKind.delete_new⟩], 1⟩).sharders.getD 0
        sharder_default).new_task = some 1 := by
  decide

/-- Embeds the history sharder selection loop of
`multi_client_message_delete_sequence` (client.py lines 4389-4398): wrap
`get_mass_task_next` to zero when out of range, stop at the first sharder with
read-history permission — without advancing `get_mass_task_next`, which is
incremented only while candidates lack the permission.  Fuel bounds the
search (the Python loop spins forever when no sharder can read; the callers
guarantee one can).  Returns the chosen index and the new `get_mass_task_next`. -/
def history_sharder_pick (sharders : List Sharder) : Nat → Nat → Option (Nat × Nat)
  | 0, _ => none
  | fuel + 1, next =>
    let next1 := if sharders.length ≤ next then 0 else next
    match sharders.get? next1 with
    | none => none
    | some sh =>
      if sh.can_read then some (next1, next1)
      else history_sharder_pick sharders fuel (next1 + 1)

/-- The selection with enough fuel to scan every sharder once. -/
def history_sharder_select (sharders : List Sharder) (next : Nat) : Option (Nat × Nat) :=
  history_sharder_pick sharders (sharders.length + 1) next

/-- Embeds the `message_group_old` submission pass of
`multi_client_message_delete_sequence` (client.py lines 4496-4506) for the
sharder at index `i`: any sharder with a free `delete_old_task` slot receives
the next old message — no permission is checked on this path. -/
def multi_old_body (st : MultiPassState) (i : Nat) : MultiPassState :=
  match st.sharders.get? i with
  | none => st
  | some sh =>
    if sh.old_task = none then
      match st.old_q with
      | [] => st
      | _ :: rest =>
        { st with
          old_q := rest
          sharders := set_old_task_at st.sharders i st.next_task_id
          tasks := st.tasks ++ [⟨st.next_task_id, i, ChanKind.delete_old⟩]
          next_task_id := st.next_task_id + 1 }
    else st

/-- The whole `message_group_old` submission pass (client.py lines 4496-4506). -/
def multi_old_pass (st : MultiPassState) : MultiPassState :=
  if st.old_q = [] then st
  else (List.range st.sharders.length).foldl multi_old_body st

/-- C6: evidence for the defects.  First, with two read-capable sharders the
history selection returns index 0 and leaves `get_mass_task_next` at 0, so the
next request is again routed to sharder 0: history requests are not rotated
round-robin.  Second, with sharder 0 able only to read history and sharder 1
able only to delete, the old-message pass routes the aged foreign message to
sharder 0, which has no delete permission. -/
theorem multi_routing_defects :
    history_sharder_select
        [⟨false, true, none, none, none⟩, ⟨false, true, none, none, none⟩] 0 = some (0, 0) ∧
    (multi_old_pass
        ⟨[⟨false, true, none, none, none⟩, ⟨true, false, none, none, none⟩],
         [], [42], [], [], 0⟩).tasks = [⟨0, 0, ChanKind.delete_old⟩] ∧
    (⟨false, true, none, none, none⟩ : Sharder).can_manage = false := by
  decide

/-- One record of a history page as the classification loop of
`message_delete_sequence` consumes it (client.py lines 4169-4231): whether the
caller's filter keeps it (always true when `filter is None`), whether the
acting client authored it, and its message id. -/
structure PageEntry where
  keep : Bool
  own : Bool
  message_id : Int
deriving DecidableEq

/-- The state of the `message_delete_sequence` driving loop (client.py lines
4030-4246): the three work deques, the four task slots (`true` = a task is
outstanding in that slot), the `should_request` flag, the remaining message
history (the pages future `message_logs` requests will return; finite, matching
the claim's finite-history assumption), the `after` boundary and the remaining
deletion `limit`. -/
structure SeqState where
  new_q : List (Bool × Int)
  old_q : List Int
  old_own_q : List Int
  get_mass_task : Bool
  delete_mass_task : Bool
  delete_new_task : Bool
  delete_old_task : Bool
  should_request : Bool
  history : List (List PageEntry)
  after : Int
  limit : Nat
deriving DecidableEq

/-- Whether the slot of the given kind holds an outstanding task. -/
def flag_of (k : ChanKind) (s : SeqState) : Bool :=
  match k with
  | .get_mass => s.get_mass_task
  | .delete_mass => s.delete_mass_task
  | .delete_new => s.delete_new_task
  | .delete_old => s.delete_old_task

/-- The outstanding tasks, as the list `tasks` of the Python loop holds them
(every created task is one of the four slots and is removed on completion, so
the list is determined by the slots). -/
def SeqState.pending (s : SeqState) : List ChanKind :=
  [ChanKind.get_mass, ChanKind.delete_mass, ChanKind.delete_new,
    ChanKind.delete_old].filter (fun k => flag_of k s)

/-- What the environment supplies to one loop iteration: the two clock readings
(the cutoff of line 4044 for submission and of line 4167 for classification),
which outstanding tasks complete at the `WaitTillFirst` of line 4144, and which
completions raise. -/
structure IterEnv where
  tl_submit : Int
  tl_classify : Int
  done_request : List ChanKind
  failures : ChanKind → Bool

/-- Step of client.py lines 4031-4038: submit a history request when requesting
is still allowed and the slot is free. -/
def submit_history (s : SeqState) : SeqState :=
  if s.should_request = true ∧ s.get_mass_task = false then { s with get_mass_task := true }
  else s

/-- Step of client.py lines 4040-4109: the mass-delete decision (collect the
eligible fresh prefix, submit it as one bulk task, or as a single-new task when
only one id is eligible and the slot is free) followed by the expired tail
re-classification. -/
def submit_mass (time_limit : Int) (s : SeqState) : SeqState :=
  if s.delete_mass_task = true then s
  else if s.new_q = [] then s
  else
    let d := sequence_mass_decision time_limit s.new_q s.delete_new_task
    let s1 :=
      match d.1 with
      | .no_action => { s with new_q := d.2 }
      | .single_new _ => { s with new_q := d.2, delete_new_task := true }
      | .mass _ => { s with new_q := d.2, delete_mass_task := true }
    match drain_expired (time_limit - 20971520000) s1.new_q s1.old_q s1.old_own_q with
    | (new_q1, old_q1, old_own_q1) =>
      { s1 with new_q := new_q1, old_q := old_q1, old_own_q := old_own_q1 }

/-- Step of client.py lines 4111-4116: feed the single-new slot from the old
own queue. -/
def submit_old_own (s : SeqState) : SeqState :=
  if s.delete_new_task = true then s
  else
    match s.old_own_q with
    | [] => s
    | _ :: rest => { s with old_own_q := rest, delete_new_task := true }

/-- Step of client.py lines 4118-4122: feed the old-delete slot. -/
def submit_old (s : SeqState) : SeqState :=
  if s.delete_old_task = true then s
  else
    match s.old_q with
    | [] => s
    | _ :: rest => { s with old_q := rest, delete_old_task := true }

/-- Step of client.py lines 4124-4142: with no outstanding task the loop either
exits (`none`, the `break` of line 4129) or pops one borderline fresh message
and deletes it through the single endpoint fitting its ownership. -/
def submit_fallback (s : SeqState) : Option SeqState :=
  if s.pending = [] then
    match s.new_q with
    | [] => none
    | (own, _) :: rest =>
      some (if own then { s with new_q := rest, delete_new_task := true }
            else { s with new_q := rest, delete_old_task := true })
  else some s

/-- The whole submission half of one loop iteration (client.py lines 4031-4142). -/
def submit_phase (time_limit : Int) (s : SeqState) : Option SeqState :=
  submit_fallback (submit_old (submit_old_own (submit_mass time_limit (submit_history s))))

/-- The classification loop over one received history page (client.py lines
4169-4231): stop (and stop requesting) at the `after` boundary, skip records
the filter rejects, classify everything else by the two-week cutoff, and stop
once the deletion `limit` is exhausted. -/
def page_classify (time_limit : Int) : List PageEntry → SeqState → SeqState
  | [], s => s
  | entry :: rest, s =>
    if entry.message_id < s.after then { s with should_request := false }
    else if entry.keep = false then page_classify time_limit rest s
    else
      let s1 :=
        if time_limit < entry.message_id then
          { s with new_q := s.new_q ++ [(entry.own, entry.message_id)] }
        else if entry.own then { s with old_own_q := s.old_own_q ++ [entry.message_id] }
        else { s with old_q := s.old_q ++ [entry.message_id] }
      if s1.limit - 1 = 0 then { s1 with limit := 0, should_request := false }
      else page_classify time_limit rest { s1 with limit := s1.limit - 1 }

/-- Completion of the history request (client.py lines 4155-4231): clear the
slot, pop the next page (an exhausted history yields zero records), flip
`should_request` off on a short page, and classify the received records. -/
def complete_get (time_limit : Int) (s : SeqState) : SeqState :=
  let s0 := { s with get_mass_task := false }
  match s.history with
  | [] => { s0 with should_request := false }
  | page :: rest =>
    let s1 := { s0 with
      history := rest
      should_request := if page.length < 100 then false else s0.should_request }
    if page.length = 0 then s1
    else page_classify time_limit page s1

/-- Completion of a delete task (client.py lines 4233-4243): clear its slot. -/
def complete_delete (k : ChanKind) (s : SeqState) : SeqState :=
  match k with
  | .get_mass => s
  | .delete_mass => { s with delete_mass_task := false }
  | .delete_new => { s with delete_new_task := false }
  | .delete_old => { s with delete_old_task := false }

/-- Processing of one completed task. -/
def complete_task (time_limit : Int) (s : SeqState) (k : ChanKind) : SeqState :=
  match k with
  | ChanKind.get_mass => complete_get time_limit s
  | k => complete_delete k s

/-- The `await WaitTillFirst` half of one iteration (client.py lines
4144-4246).  The environment chooses which outstanding tasks complete;
`WaitTillFirst` blocks until at least one does, so when the choice misses every
outstanding task the whole outstanding set completes.  A failing completion
cancels the remaining tasks and re-raises, ending the loop (`none`); otherwise
every completed task is processed. -/
def await_phase (e : IterEnv) (s : SeqState) : Option SeqState :=
  let done0 := s.pending.filter (fun k => decide (k ∈ e.done_request))
  let done := if done0 = [] then s.pending else done0
  if done.any e.failures then none
  else some (done.foldl (fun s1 k => complete_task e.tl_classify s1 k) s)

/-- One iteration of the `while True:` loop of `message_delete_sequence`
(client.py lines 4030-4246); `none` means the loop ended (regular `break` or a
propagated failure). -/
def seq_iter (e : IterEnv) (s : SeqState) : Option SeqState :=
  match submit_phase e.tl_submit s with
  | none => none
  | some s1 => await_phase e s1

/-- Runs `k` iterations under the environment stream `env`; `none` when the
loop ended within `k` iterations. -/
def seq_run (env : Nat → IterEnv) : Nat → SeqState → Option SeqState
  | 0, s => some s
  | k + 1, s =>
    match seq_iter (env 0) s with
    | none => none
    | some s1 => seq_run (fun n => env (n + 1)) k s1

/-- Weight of one unfetched history page in the termination measure. -/
def page_weight (page : List PageEntry) : Nat := page.length + 2

/-- Number of outstanding tasks. -/
def SeqState.task_count (s : SeqState) : Nat :=
  (bif s.get_mass_task then 1 else 0) + (bif s.delete_mass_task then 1 else 0) +
  (bif s.delete_new_task then 1 else 0) + (bif s.delete_old_task then 1 else 0)

/-- Termination measure of the loop: remaining history (two extra units per
page), the three queue lengths, the outstanding tasks, and one unit for a still
available history submission. -/
def SeqState.measure_of (s : SeqState) : Nat :=
  (s.history.map page_weight).sum + s.new_q.length + s.old_q.length +
  s.old_own_q.length + s.task_count +
  (bif !s.get_mass_task && s.should_request then 1 else 0)

lemma mem_pending {s : SeqState} {k : ChanKind} : k ∈ s.pending ↔ flag_of k s = true := by
  cases k <;> simp [SeqState.pending, List.mem_filter]

lemma pending_nodup (s : SeqState) : s.pending.Nodup :=
  List.Nodup.filter _ (by decide)

lemma pending_eq_nil_iff (s : SeqState) :
    s.pending = [] ↔
      s.get_mass_task = false ∧ s.delete_mass_task = false ∧
      s.delete_new_task = false ∧ s.delete_old_task = false := by
  cases hg : s.get_mass_task <;> cases hm : s.delete_mass_task <;>
    cases hn : s.delete_new_task <;> cases ho : s.delete_old_task <;>
      simp [SeqState.pending, flag_of, List.filter, hg, hm, hn, ho]

lemma pending_length_eq (s : SeqState) : s.pending.length = s.task_count := by
  cases hg : s.get_mass_task <;> cases hm : s.delete_mass_task <;>
    cases hn : s.delete_new_task <;> cases ho : s.delete_old_task <;>
      simp [SeqState.pending, SeqState.task_count, flag_of, List.filter, hg, hm, hn, ho]

lemma drain_expired_rev_length (tl : Int) :
    ∀ (l : List (Bool × Int)) (old_q old_own_q : List Int),
      (drain_expired_rev tl l old_q old_own_q).1.length +
        (drain_expired_rev tl l old_q old_own_q).2.1.length +
        (drain_expired_rev tl l old_q old_own_q).2.2.length =
        l.length + old_q.length + old_own_q.length := by
  intro l
  induction l with
  | nil => intro old_q old_own_q; simp [drain_expired_rev]
  | cons p rest ih =>
    intro old_q old_own_q
    obtain ⟨own, message_id⟩ := p
    by_cases hlt : tl < message_id
    · simp [drain_expired_rev, hlt]
    · cases own with
      | false =>
        have h := ih (message_id :: old_q) old_own_q
        simp only [List.length_cons] at h
        simp [drain_expired_rev, hlt]
        omega
      | true =>
        have h := ih old_q (message_id :: old_own_q)
        simp only [List.length_cons] at h
        simp [drain_expired_rev, hlt]
        omega

lemma drain_expired_length (tl : Int) (new_q : List (Bool × Int)) (old_q old_own_q : List Int) :
    (drain_expired tl new_q old_q old_own_q).1.length +
      (drain_expired tl new_q old_q old_own_q).2.1.length +
      (drain_expired tl new_q old_q old_own_q).2.2.length =
      new_q.length + old_q.length + old_own_q.length := by
  have h := drain_expired_rev_length tl new_q.reverse old_q old_own_q
  rcases hr : drain_expired_rev tl new_q.reverse old_q old_own_q with ⟨a, b, c⟩
  rw [hr] at h
  simp only [drain_expired, hr]
  simp only [List.length_reverse] at h ⊢
  omega

lemma sequence_mass_decision_cases (tl : Int) (new_q : List (Bool × Int)) (busy : Bool) :
    ((sequence_mass_decision tl new_q busy).1 = .no_action →
      (sequence_mass_decision tl new_q busy).2 = new_q) ∧
    (∀ x, (sequence_mass_decision tl new_q busy).1 = .single_new x →
      busy = false ∧ (sequence_mass_decision tl new_q busy).2.length + 1 = new_q.length) ∧
    (∀ ids, (sequence_mass_decision tl new_q busy).1 = .mass ids →
      (sequence_mass_decision tl new_q busy).2.length + 2 ≤ new_q.length) := by
  by_cases h0 : collect_count tl new_q = 0
  · simp [sequence_mass_decision, h0]
  by_cases h1 : collect_count tl new_q = 1
  · by_cases hb : busy = true
    · simp [sequence_mass_decision, h0, h1, hb]
    · simp only [Bool.not_eq_true] at hb
      rcases new_q with _ | ⟨⟨own, message_id⟩, rest⟩
      · simp [collect_count, collect_count_go] at h0
      · simp [sequence_mass_decision, h0, h1, hb]
  · have hge : 2 ≤ collect_count tl new_q := by omega
    have hle : collect_count tl new_q ≤ new_q.length := collect_count_le_len tl new_q
    simp only [sequence_mass_decision, h0, h1, if_neg h0, if_neg h1, if_false]
    refine ⟨by simp, by simp, ?_⟩
    intro ids _
    simp only [List.length_drop]
    omega

lemma measure_submit_history (s : SeqState) :
    (submit_history s).measure_of ≤ s.measure_of := by
  unfold submit_history
  split
  · rename_i h
    simp [SeqState.measure_of, SeqState.task_count, h.1, h.2]
    omega
  · exact le_refl _

lemma measure_submit_mass (tl : Int) (s : SeqState) :
    (submit_mass tl s).measure_of ≤ s.measure_of := by
  unfold submit_mass
  split
  · exact le_refl _
  split
  · exact le_refl _
  rename_i hmass hnil
  have hcase := sequence_mass_decision_cases tl s.new_q s.delete_new_task
  rcases hd : sequence_mass_decision tl s.new_q s.delete_new_task with ⟨act, q2⟩
  rw [hd] at hcase
  simp only at hcase
  have hmass' : s.delete_mass_task = false := by
    simpa using hmass
  cases act with
  | no_action =>
    have hq : q2 = s.new_q := hcase.1 rfl
    rcases hdr : drain_expired (tl - 20971520000) q2 s.old_q s.old_own_q with ⟨a, b, c⟩
    have hlen := drain_expired_length (tl - 20971520000) q2 s.old_q s.old_own_q
    rw [hdr] at hlen
    simp only at hlen
    simp only [hd, hdr]
    simp [SeqState.measure_of, SeqState.task_count, hq]
    subst hq
    omega
  | single_new x =>
    obtain ⟨hbusy, hlen1⟩ := hcase.2.1 x rfl
    rcases hdr : drain_expired (tl - 20971520000) q2 s.old_q s.old_own_q with ⟨a, b, c⟩
    have hlen := drain_expired_length (tl - 20971520000) q2 s.old_q s.old_own_q
    rw [hdr] at hlen
    simp only at hlen
    simp only [hd, hdr]
    simp [SeqState.measure_of, SeqState.task_count, hbusy]
    omega
  | mass ids =>
    have hlen2 := hcase.2.2 ids rfl
    rcases hdr : drain_expired (tl - 20971520000) q2 s.old_q s.old_own_q with ⟨a, b, c⟩
    have hlen := drain_expired_length (tl - 20971520000) q2 s.old_q s.old_own_q
    rw [hdr] at hlen
    simp only at hlen
    simp only [hd, hdr]
    simp [SeqState.measure_of, SeqState.task_count, hmass']
    omega

lemma measure_submit_old_own (s : SeqState) :
    (submit_old_own s).measure_of ≤ s.measure_of := by
  unfold submit_old_own
  split
  · exact le_refl _
  rename_i hbusy
  have hbusy' : s.delete_new_task = false := by simpa using hbusy
  rcases hq : s.old_own_q with _ | ⟨x, rest⟩
  · simp [hq]
  · simp [hq, SeqState.measure_of, SeqState.task_count, hbusy']
    omega

lemma measure_submit_old (s : SeqState) :
    (submit_old s).measure_of ≤ s.measure_of := by
  unfold submit_old
  split
  · exact le_refl _
  rename_i hbusy
  have hbusy' : s.delete_old_task = false := by simpa using hbusy
  rcases hq : s.old_q with _ | ⟨x, rest⟩
  · simp [hq]
  · simp [hq, SeqState.measure_of, SeqState.task_count, hbusy']
    omega

lemma submit_fallback_none (s : SeqState) (h : submit_fallback s = none) :
    s.pending = [] ∧ s.new_q = [] := by
  unfold submit_fallback at h
  by_cases hp : s.pending = []
  · rw [if_pos hp] at h
    rcases hq : s.new_q with _ | ⟨⟨own, mid⟩, rest⟩
    · exact ⟨hp, rfl⟩
    · rw [hq] at h
      simp at h
  · rw [if_neg hp] at h
    simp at h

lemma submit_fallback_some (s s1 : SeqState) (h : submit_fallback s = some s1) :
    s1.measure_of ≤ s.measure_of ∧ s1.pending ≠ [] := by
  unfold submit_fallback at h
  by_cases hp : s.pending = []
  · rw [if_pos hp] at h
    have hflags := (pending_eq_nil_iff s).mp hp
    rcases hq : s.new_q with _ | ⟨⟨own, mid⟩, rest⟩
    · rw [hq] at h
      simp at h
    · rw [hq] at h
      cases own with
      | true =>
        simp only [if_pos rfl, Option.some.injEq] at h
        subst h
        constructor
        · simp [SeqState.measure_of, SeqState.task_count, hq, hflags.2.2.1]
          omega
        · apply List.ne_nil_of_mem (a := ChanKind.delete_new)
          rw [mem_pending]
          rfl
      | false =>
        simp only [Bool.false_eq_true, if_false, Option.some.injEq] at h
        subst h
        constructor
        · simp [SeqState.measure_of, SeqState.task_count, hq, hflags.2.2.2]
          omega
        · apply List.ne_nil_of_mem (a := ChanKind.delete_old)
          rw [mem_pending]
          rfl
  · rw [if_neg hp] at h
    simp only [Option.some.injEq] at h
    subst h
    exact ⟨le_refl _, hp⟩

lemma page_classify_flags (tl : Int) :
    ∀ (page : List PageEntry) (s : SeqState),
      (page_classify tl page s).get_mass_task = s.get_mass_task ∧
      (page_classify tl page s).delete_mass_task = s.delete_mass_task ∧
      (page_classify tl page s).delete_new_task = s.delete_new_task ∧
      (page_classify tl page s).delete_old_task = s.delete_old_task := by
  intro page
  induction page with
  | nil => intro s; simp [page_classify]
  | cons entry rest ih =>
    intro s
    simp only [page_classify]
    by_cases hafter : entry.message_id < s.after
    · simp [hafter]
    by_cases hkeep : entry.keep = false
    · simp only [if_neg hafter, if_pos hkeep]
      exact ih s
    · simp only [if_neg hafter, if_neg hkeep]
      by_cases hA : tl < entry.message_id
      · simp only [if_pos hA]
        split
        · simp
        · exact ih _
      · by_cases hown : entry.own = true
        · simp only [if_neg hA, if_pos hown]
          split
          · simp
          · exact ih _
        · simp only [if_neg hA, if_neg hown]
          split
          · simp
          · exact ih _

lemma page_classify_history (tl : Int) :
    ∀ (page : List PageEntry) (s : SeqState),
      (page_classify tl page s).history = s.history := by
  intro page
  induction page with
  | nil => intro s; simp [page_classify]
  | cons entry rest ih =>
    intro s
    simp only [page_classify]
    by_cases hafter : entry.message_id < s.after
    · simp [hafter]
    by_cases hkeep : entry.keep = false
    · simp only [if_neg hafter, if_pos hkeep]
      exact ih s
    · simp only [if_neg hafter, if_neg hkeep]
      by_cases hA : tl < entry.message_id
      · simp only [if_pos hA]
        split
        · simp
        · exact ih _
      · by_cases hown : entry.own = true
        · simp only [if_neg hA, if_pos hown]
          split
          · simp
          · exact ih _
        · simp only [if_neg hA, if_neg hown]
          split
          · simp
          · exact ih _

lemma page_classify_queues (tl : Int) :
    ∀ (page : List PageEntry) (s : SeqState),
      (page_classify tl page s).new_q.length + (page_classify tl page s).old_q.length +
          (page_classify tl page s).old_own_q.length ≤
        s.new_q.length + s.old_q.length + s.old_own_q.length + page.length := by
  intro page
  induction page with
  | nil => intro s; simp [page_classify]
  | cons entry rest ih =>
    intro s
    simp only [page_classify, List.length_cons]
    by_cases hafter : entry.message_id < s.after
    · simp [hafter]
      all_goals omega
    by_cases hkeep : entry.keep = false
    · simp only [if_neg hafter, if_pos hkeep]
      have h := ih s
      omega
    · simp only [if_neg hafter, if_neg hkeep]
      by_cases hA : tl < entry.message_id
      · simp only [if_pos hA]
        split
        · simp
          all_goals omega
        · refine le_trans (ih _) ?_
          simp
          all_goals omega
      · by_cases hown : entry.own = true
        · simp only [if_neg hA, if_pos hown]
          split
          · simp
            all_goals omega
          · refine le_trans (ih _) ?_
            simp
            all_goals omega
        · simp only [if_neg hA, if_neg hown]
          split
          · simp
            all_goals omega
          · refine le_trans (ih _) ?_
            simp
            all_goals omega

lemma page_classify_sr (tl : Int) :
    ∀ (page : List PageEntry) (s : SeqState),
      (page_classify tl page s).should_request = true → s.should_request = true := by
  intro page
  induction page with
  | nil => intro s h; simpa [page_classify] using h
  | cons entry rest ih =>
    intro s h
    simp only [page_classify] at h
    by_cases hafter : entry.message_id < s.after
    · simp [hafter] at h
    by_cases hkeep : entry.keep = false
    · rw [if_neg hafter, if_pos hkeep] at h
      exact ih s h
    · rw [if_neg hafter, if_neg hkeep] at h
      by_cases hA : tl < entry.message_id
      · rw [if_pos hA] at h
        split at h
        · simp at h
        · have h2 := ih _ h
          simpa using h2
      · by_cases hown : entry.own = true
        · rw [if_neg hA, if_pos hown] at h
          split at h
          · simp at h
          · have h2 := ih _ h
            simpa using h2
        · rw [if_neg hA, if_neg hown] at h
          split at h
          · simp at h
          · have h2 := ih _ h
            simpa using h2

lemma measure_page_classify_bound (tl : Int) (page : List PageEntry) (t : SeqState) :
    (page_classify tl page t).measure_of ≤ t.measure_of + page.length := by
  have hq := page_classify_queues tl page t
  have hh := page_classify_history tl page t
  have hfl := page_classify_flags tl page t
  have hsr := page_classify_sr tl page t
  unfold SeqState.measure_of SeqState.task_count
  rw [hh, hfl.1, hfl.2.1, hfl.2.2.1, hfl.2.2.2]
  cases hrs : (page_classify tl page t).should_request with
  | false =>
    cases ht : t.should_request <;> cases hg : t.get_mass_task <;> simp <;> omega
  | true =>
    rw [hsr hrs]
    omega

lemma complete_get_flags (tl : Int) (s : SeqState) :
    (complete_get tl s).delete_mass_task = s.delete_mass_task ∧
    (complete_get tl s).delete_new_task = s.delete_new_task ∧
    (complete_get tl s).delete_old_task = s.delete_old_task ∧
    (complete_get tl s).get_mass_task = false := by
  rcases hh : s.history with _ | ⟨page, rest⟩
  · simp [complete_get, hh]
  · simp only [complete_get, hh]
    by_cases hz : page.length = 0
    · simp [hz]
    · rw [if_neg hz]
      have h := page_classify_flags tl page ({ { s with get_mass_task := false } with
        history := rest
        should_request := if page.length < 100 then false
          else ({ s with get_mass_task := false }).should_request })
      refine ⟨?_, ?_, ?_, ?_⟩
      · rw [h.2.1]
      · rw [h.2.2.1]
      · rw [h.2.2.2]
      · rw [h.1]

lemma measure_complete_get (tl : Int) (s : SeqState) (hflag : s.get_mass_task = true) :
    (complete_get tl s).measure_of < s.measure_of := by
  rcases hh : s.history with _ | ⟨page, rest⟩
  · simp [complete_get, SeqState.measure_of, SeqState.task_count, hflag, hh]
    all_goals omega
  · simp only [complete_get, hh]
    by_cases hz : page.length = 0
    · rw [if_pos hz]
      simp [SeqState.measure_of, SeqState.task_count, page_weight, hflag, hh, hz]
      cases hsv : s.should_request <;> (try simp) <;> omega
    · rw [if_neg hz]
      refine lt_of_le_of_lt (measure_page_classify_bound tl page _) ?_
      by_cases h100 : page.length < 100
      · simp [SeqState.measure_of, SeqState.task_count, page_weight, hflag, hh, h100]
        omega
      · simp only [SeqState.measure_of, SeqState.task_count, page_weight, hh, hflag, if_neg h100]
        cases hsv : s.should_request <;> (try simp [page_weight]) <;> omega

lemma measure_complete_delete (k : ChanKind) (s : SeqState) (hk : k ≠ ChanKind.get_mass)
    (hflag : flag_of k s = true) :
    (complete_delete k s).measure_of < s.measure_of := by
  cases k with
  | get_mass => exact absurd rfl hk
  | delete_mass =>
    simp only [flag_of] at hflag
    simp [complete_delete, SeqState.measure_of, SeqState.task_count, hflag]
    all_goals omega
  | delete_new =>
    simp only [flag_of] at hflag
    simp [complete_delete, SeqState.measure_of, SeqState.task_count, hflag]
    all_goals omega
  | delete_old =>
    simp only [flag_of] at hflag
    simp [complete_delete, SeqState.measure_of, SeqState.task_count, hflag]
    all_goals omega

lemma complete_task_flag (tl : Int) (s : SeqState) (a k : ChanKind) (hne : k ≠ a) :
    flag_of k (complete_task tl s a) = flag_of k s := by
  cases a with
  | get_mass =>
    have h := complete_get_flags tl s
    cases k with
    | get_mass => exact absurd rfl hne
    | delete_mass => simpa [complete_task, flag_of] using h.1
    | delete_new => simpa [complete_task, flag_of] using h.2.1
    | delete_old => simpa [complete_task, flag_of] using h.2.2.1
  | delete_mass =>
    cases k with
    | get_mass => simp [complete_task, complete_delete, flag_of]
    | delete_mass => exact absurd rfl hne
    | delete_new => simp [complete_task, complete_delete, flag_of]
    | delete_old => simp [complete_task, complete_delete, flag_of]
  | delete_new =>
    cases k with
    | get_mass => simp [complete_task, complete_delete, flag_of]
    | delete_mass => simp [complete_task, complete_delete, flag_of]
    | delete_new => exact absurd rfl hne
    | delete_old => simp [complete_task, complete_delete, flag_of]
  | delete_old =>
    cases k with
    | get_mass => simp [complete_task, complete_delete, flag_of]
    | delete_mass => simp [complete_task, complete_delete, flag_of]
    | delete_new => simp [complete_task, complete_delete, flag_of]
    | delete_old => exact absurd rfl hne

lemma measure_complete_task (tl : Int) (s : SeqState) (a : ChanKind)
    (hflag : flag_of a s = true) :
    (complete_task tl s a).measure_of < s.measure_of := by
  cases a with
  | get_mass => exact measure_complete_get tl s hflag
  | delete_mass => exact measure_complete_delete _ s (by simp) hflag
  | delete_new => exact measure_complete_delete _ s (by simp) hflag
  | delete_old => exact measure_complete_delete _ s (by simp) hflag

lemma await_fold_decreases (tl : Int) :
    ∀ (done : List ChanKind) (s : SeqState), done ≠ [] → done.Nodup →
      (∀ k ∈ done, flag_of k s = true) →
      (done.foldl (fun s1 k => complete_task tl s1 k) s).measure_of < s.measure_of := by
  intro done
  induction done with
  | nil => intro s h _ _; exact absurd rfl h
  | cons a ds ih =>
    intro s _ hnd hflags
    have hnd' := List.nodup_cons.mp hnd
    have hstep : (complete_task tl s a).measure_of < s.measure_of :=
      measure_complete_task tl s a (hflags a (List.mem_cons_self a ds))
    by_cases hds : ds = []
    · rw [hds]
      simpa using hstep
    · rw [List.foldl_cons]
      refine lt_trans (ih (complete_task tl s a) hds hnd'.2 ?_) hstep
      intro k hk
      have hkne : k ≠ a := fun h => hnd'.1 (h ▸ hk)
      rw [complete_task_flag tl s a k hkne]
      exact hflags k (List.mem_cons_of_mem a hk)

lemma measure_await_phase (e : IterEnv) (s s2 : SeqState) (hpend : s.pending ≠ [])
    (h : await_phase e s = some s2) : s2.measure_of < s.measure_of := by
  simp only [await_phase] at h
  set done0 := s.pending.filter (fun k => decide (k ∈ e.done_request)) with hd0
  set done := if done0 = [] then s.pending else done0 with hdone
  have hdsub : ∀ k ∈ done, k ∈ s.pending := by
    intro k hk
    rw [hdone] at hk
    split at hk
    · exact hk
    · rw [hd0] at hk
      exact (List.mem_filter.mp hk).1
  have hdne : done ≠ [] := by
    rw [hdone]
    split
    · exact hpend
    · rename_i hne
      exact hne
  have hdnodup : done.Nodup := by
    rw [hdone]
    split
    · exact pending_nodup s
    · rw [hd0]
      exact (pending_nodup s).filter _
  split at h
  · simp at h
  · simp only [Option.some.injEq] at h
    subst h
    exact await_fold_decreases e.tl_classify done s hdne hdnodup
      (fun k hk => mem_pending.mp (hdsub k hk))

lemma seq_iter_decreases (e : IterEnv) (s s1 : SeqState) (h : seq_iter e s = some s1) :
    s1.measure_of < s.measure_of := by
  unfold seq_iter at h
  rcases hsp : submit_phase e.tl_submit s with _ | s'
  · rw [hsp] at h
    simp at h
  · rw [hsp] at h
    have hchain :
        (submit_old (submit_old_own (submit_mass e.tl_submit (submit_history s)))).measure_of ≤
          s.measure_of :=
      le_trans (measure_submit_old _)
        (le_trans (measure_submit_old_own _)
          (le_trans (measure_submit_mass _ _) (measure_submit_history s)))
    unfold submit_phase at hsp
    obtain ⟨hle, hpend⟩ := submit_fallback_some _ _ hsp
    exact lt_of_lt_of_le (measure_await_phase e s' s1 hpend h) (le_trans hle hchain)

lemma seq_terminates_aux :
    ∀ (n : Nat) (s : SeqState), s.measure_of ≤ n →
      ∀ (env : Nat → IterEnv), ∃ k, seq_run env k s = none := by
  intro n
  induction n with
  | zero =>
    intro s hm env
    rcases hiter : seq_iter (env 0) s with _ | s1
    · exact ⟨1, by simp [seq_run, hiter]⟩
    · have := seq_iter_decreases (env 0) s s1 hiter
      omega
  | succ n ih =>
    intro s hm env
    rcases hiter : seq_iter (env 0) s with _ | s1
    · exact ⟨1, by simp [seq_run, hiter]⟩
    · have hlt := seq_iter_decreases (env 0) s s1 hiter
      obtain ⟨k, hk⟩ := ih s1 (by omega) (fun m => env (m + 1))
      exact ⟨k + 1, by simp [seq_run, hiter, hk]⟩

/-- C4: the driving loop of `message_delete_sequence` terminates for every
initial state (any finite work set, any finite remaining history) and every
environment behaviour (arbitrary clock readings, completion choices and
failures); moreover the regular exit (`break`) is taken exactly from the state
with no outstanding task and all three work queues empty. -/
theorem message_delete_sequence_terminates :
    (∀ (env : Nat → IterEnv) (s : SeqState), ∃ k, seq_run env k s = none) ∧
    (∀ (tl : Int) (s : SeqState), submit_phase tl s = none →
      (submit_old (submit_old_own (submit_mass tl (submit_history s)))).pending = [] ∧
      (submit_old (submit_old_own (submit_mass tl (submit_history s)))).new_q = [] ∧
      (submit_old (submit_old_own (submit_mass tl (submit_history s)))).old_q = [] ∧
      (submit_old (submit_old_own (submit_mass tl (submit_history s)))).old_own_q = []) := by
  constructor
  · intro env s
    exact seq_terminates_aux s.measure_of s (le_refl _) env
  · intro tl s h
    unfold submit_phase at h
    obtain ⟨hpend, hnew⟩ := submit_fallback_none _ h
    set t3 := submit_mass tl (submit_history s) with ht3
    set t2 := submit_old_own t3 with ht2
    have hflags := (pending_eq_nil_iff _).mp hpend
    have hA : t2.old_q = [] ∧ submit_old t2 = t2 := by
      by_cases hb : t2.delete_old_task = true
      · exfalso
        have hset : (submit_old t2).delete_old_task = true := by
          simp [submit_old, hb]
        rw [hflags.2.2.2] at hset
        exact absurd hset (by simp)
      · have hb' : t2.delete_old_task = false := by simpa using hb
        rcases hq : t2.old_q with _ | ⟨x, rest⟩
        · exact ⟨rfl, by simp [submit_old, hb', hq]⟩
        · exfalso
          have hset : (submit_old t2).delete_old_task = true := by
            simp [submit_old, hb', hq]
          rw [hflags.2.2.2] at hset
          exact absurd hset (by simp)
    rw [hA.2] at hflags
    have hB : t3.old_own_q = [] ∧ submit_old_own t3 = t3 := by
      by_cases hb : t3.delete_new_task = true
      · exfalso
        have hset : (submit_old_own t3).delete_new_task = true := by
          simp [submit_old_own, hb]
        rw [← ht2] at hset
        rw [hflags.2.2.1] at hset
        exact absurd hset (by simp)
      · have hb' : t3.delete_new_task = false := by simpa using hb
        rcases hq : t3.old_own_q with _ | ⟨x, rest⟩
        · exact ⟨rfl, by simp [submit_old_own, hb', hq]⟩
        · exfalso
          have hset : (submit_old_own t3).delete_new_task = true := by
            simp [submit_old_own, hb', hq]
          rw [← ht2] at hset
          rw [hflags.2.2.1] at hset
          exact absurd hset (by simp)
    refine ⟨hpend, hnew, ?_, ?_⟩
    · rw [hA.2]
      exact hA.1
    · rw [hA.2, ht2, hB.2]
      exact hB.1

/-- C4 witness: a concrete empty run terminates, and the concrete exhausted
state takes the regular exit with an empty fresh queue. -/
theorem message_delete_sequence_terminates_witness :
    (∃ k, seq_run (fun _ => ⟨0, 0, [], fun _ => false⟩) k
        ⟨[], [], [], false, false, false, false, false, [], 0, 0⟩ = none) ∧
    (submit_old (submit_old_own (submit_mass 0 (submit_history
        ⟨[], [], [], false, false, false, false, false, [], 0, 0⟩)))).new_q = [] :=
  ⟨message_delete_sequence_terminates.1 (fun _ => ⟨0, 0, [], fun _ => false⟩) _,
   (message_delete_sequence_terminates.2 0
      ⟨[], [], [], false, false, false, false, false, [], 0, 0⟩ (by decide)).2.1⟩

end Hata
